import Mathlib

/-! Verification development for the reliable-UDP file-transfer programs:
part 1 (fixed-window sender/receiver with SACK, `p1_server.py` /
`p1_client.py`) and part 2 (congestion-controlled sender and simple
receiver, `p2_server.py` / `p2_client.py`).  The Python code is shallowly
embedded: byte strings become `List ℕ`, Python dictionaries become
association lists, floats become exact rationals, and wall-clock times are
passed in as explicit parameters. -/

namespace Proto

/-- The three-octet EOF sentinel `b'EOF'` (ASCII 69, 79, 70). -/
def EOFb : List ℕ := [69, 79, 70]

/-- Lookup in an association list, modelling Python `dict[k]` /
`k in dict`. -/
def lookupA {α : Type} (k : ℕ) : List (ℕ × α) → Option α
  | [] => none
  | (k', v) :: t => if k' = k then some v else lookupA k t

/-- Insertion into an association list, modelling Python `dict[k] = v`
(overwrites the binding if the key is present, appends otherwise). -/
def insertA {α : Type} (k : ℕ) (v : α) : List (ℕ × α) → List (ℕ × α)
  | [] => [(k, v)]
  | (k', v') :: t => if k' = k then (k, v) :: t else (k', v') :: insertA k v t

/-- Deletion from an association list, modelling Python `del dict[k]`. -/
def eraseA {α : Type} (k : ℕ) (l : List (ℕ × α)) : List (ℕ × α) :=
  l.filter (fun p => p.1 ≠ k)

theorem eraseA_length_le {α : Type} (k : ℕ) (l : List (ℕ × α)) :
    (eraseA k l).length ≤ l.length :=
  List.length_filter_le _ _

theorem eraseA_length_lt {α : Type} {k : ℕ} {l : List (ℕ × α)} {v : α}
    (h : lookupA k l = some v) : (eraseA k l).length < l.length := by
  induction l with
  | nil => simp [lookupA] at h
  | cons p t ih =>
    obtain ⟨k', v'⟩ := p
    by_cases hk : k' = k
    · subst hk
      have hle := eraseA_length_le k' t
      have heq : eraseA k' (((k', v') : ℕ × α) :: t) = eraseA k' t := by
        simp [eraseA, List.filter_cons]
      rw [heq, List.length_cons]
      exact Nat.lt_succ_of_le hle
    · have h' : lookupA k t = some v := by simpa [lookupA, hk] using h
      have hlt := ih h'
      have heq : eraseA k (((k', v') : ℕ × α) :: t) = (k', v') :: eraseA k t := by
        simp [eraseA, List.filter_cons, hk]
      rw [heq, List.length_cons, List.length_cons]
      exact Nat.succ_lt_succ hlt

theorem lookupA_eraseA_self {α : Type} (k : ℕ) (l : List (ℕ × α)) :
    lookupA k (eraseA k l) = none := by
  induction l with
  | nil => simp [eraseA, lookupA]
  | cons p t ih =>
    obtain ⟨k', v'⟩ := p
    by_cases hk : k' = k
    · subst hk
      simpa [eraseA] using ih
    · simpa [eraseA, lookupA, hk] using ih

theorem lookupA_insertA_self {α : Type} (k : ℕ) (v : α) (l : List (ℕ × α)) :
    lookupA k (insertA k v l) = some v := by
  induction l with
  | nil => simp [insertA, lookupA]
  | cons p t ih =>
    obtain ⟨k', v'⟩ := p
    by_cases hk : k' = k
    · simp [insertA, hk, lookupA]
    · simp [insertA, hk, lookupA, ih]

theorem insertA_idem {α : Type} (k : ℕ) (v : α) (l : List (ℕ × α)) :
    insertA k v (insertA k v l) = insertA k v l := by
  induction l with
  | nil => simp [insertA]
  | cons p t ih =>
    obtain ⟨k', v'⟩ := p
    by_cases hk : k' = k
    · simp [insertA, hk]
    · simp [insertA, hk, ih]

theorem lookupA_mem {α : Type} {k : ℕ} {l : List (ℕ × α)} {v : α}
    (h : lookupA k l = some v) : (k, v) ∈ l := by
  induction l with
  | nil => simp [lookupA] at h
  | cons p t ih =>
    obtain ⟨k', v'⟩ := p
    by_cases hk : k' = k
    · subst hk
      simp only [lookupA, if_true, eq_self_iff_true, Option.some.injEq] at h
      rw [← h]; exact List.mem_cons_self _ _
    · simp only [lookupA, if_neg hk] at h
      exact List.mem_cons_of_mem _ (ih h)

theorem insertA_mem {α : Type} {k : ℕ} {v : α} {l : List (ℕ × α)}
    {p : ℕ × α} (h : p ∈ insertA k v l) : p = (k, v) ∨ p ∈ l := by
  induction l with
  | nil => simpa [insertA] using h
  | cons q t ih =>
    obtain ⟨k', v'⟩ := q
    by_cases hk : k' = k
    · simp only [insertA, if_pos hk, List.mem_cons] at h
      rcases h with h | h
      · exact Or.inl h
      · exact Or.inr (List.mem_cons_of_mem _ h)
    · simp only [insertA, if_neg hk, List.mem_cons] at h
      rcases h with h | h
      · exact Or.inr (by simp [h])
      · rcases ih h with h' | h'
        · exact Or.inl h'
        · exact Or.inr (List.mem_cons_of_mem _ h')

theorem eraseA_mem {α : Type} {k : ℕ} {l : List (ℕ × α)} {p : ℕ × α}
    (h : p ∈ eraseA k l) : p ∈ l :=
  List.mem_of_mem_filter h

/-- Big-endian 32-bit read at byte offset `o` (out-of-range bytes read as
zero; all uses guard the length first), modelling `struct.unpack('!I', …)`. -/
def rd32 (l : List ℕ) (o : ℕ) : ℕ :=
  2 ^ 24 * l.getD o 0 + 2 ^ 16 * l.getD (o + 1) 0 +
    2 ^ 8 * l.getD (o + 2) 0 + l.getD (o + 3) 0

/-- Big-endian 32-bit write, modelling `struct.pack('!I', n)`. -/
def be32 (n : ℕ) : List ℕ :=
  [n / 2 ^ 24 % 256, n / 2 ^ 16 % 256, n / 2 ^ 8 % 256, n % 256]

/-- Python `int()` truncation toward zero on a rational. -/
def pyInt (q : ℚ) : ℤ :=
  if q < 0 then -Int.floor (-q) else Int.floor q

namespace P1Server

/-- The mutable fields of `ReliableUDPServer` (p1_server.py) read or
written by the embedded operations.  `window` maps a byte offset to the
pair (payload, last-send time); `dup_ack_count` models the
`defaultdict(int)`. -/
structure SState where
  send_base : ℕ
  next_seq_num : ℕ
  window : List (ℕ × List ℕ × ℚ)
  sack_blocks : List (ℕ × ℕ)
  estimated_rtt : ℚ
  dev_rtt : ℚ
  rto : ℚ
  dup_ack_count : ℕ → ℕ
  eof_sent : Bool
  eof_seq_num : ℕ
  transfer_complete : Bool

/-- RTT smoothing factor `self.alpha = 0.125`. -/
def alpha : ℚ := 125 / 1000

/-- Deviation smoothing factor `self.beta = 0.25`. -/
def beta : ℚ := 25 / 100

/-- The state established by `ReliableUDPServer.__init__`. -/
def initS : SState where
  send_base := 0
  next_seq_num := 0
  window := []
  sack_blocks := []
  estimated_rtt := 1 / 10
  dev_rtt := 1 / 100
  rto := 2 / 10
  dup_ack_count := fun _ => 0
  eof_sent := false
  eof_seq_num := 0
  transfer_complete := false

/-- `create_packet`: 4-byte big-endian sequence number, 16 reserved zero
bytes, then the payload. -/
def create_packet (seq : ℕ) (data : List ℕ) : List ℕ :=
  be32 seq ++ List.replicate 16 0 ++ data

/-- `parse_ack`: reads the 4-byte cumulative ACK; if the datagram has at
least 20 bytes it also reads two candidate SACK pairs from the reserved
field, keeping a pair iff `start > 0 and end > start`. -/
def parse_ack (packet : List ℕ) : Option ℕ × List (ℕ × ℕ) :=
  if packet.length < 4 then (none, [])
  else
    let ack := rd32 packet 0
    let blocks :=
      if 20 ≤ packet.length then
        (let st := rd32 packet 4
         let en := rd32 packet 8
         if 0 < st ∧ st < en then [(st, en)] else []) ++
        (let st := rd32 packet 12
         let en := rd32 packet 16
         if 0 < st ∧ st < en then [(st, en)] else [])
      else []
    (some ack, blocks)

/-- `update_rto`: Jacobson/Karels update followed by the clamp
`max(0.1, min(3.0, rto))`.  The `estimated_rtt == 0` branch initialises the
estimator; otherwise the deviation update uses the freshly assigned
`estimated_rtt`, as in the source. -/
def update_rto (s : SState) (sample : ℚ) : SState :=
  let e := if s.estimated_rtt = 0 then sample
           else (1 - alpha) * s.estimated_rtt + alpha * sample
  let d := if s.estimated_rtt = 0 then sample / 2
           else (1 - beta) * s.dev_rtt + beta * |sample - e|
  { s with estimated_rtt := e, dev_rtt := d,
           rto := max (1 / 10) (min 3 (e + 4 * d)) }

/-- `handle_ack(ack_num, sack_blocks)` at time `now`.  Returns the updated
state together with the list of byte offsets retransmitted during this
invocation (the source sends one datagram per listed offset). -/
def handle_ack (s : SState) (ack : ℕ) (sacks : List (ℕ × ℕ)) (now : ℚ) :
    SState × List ℕ :=
  let s0 := { s with sack_blocks := sacks }
  if ack = s0.send_base then
    let dc := s0.dup_ack_count ack + 1
    let s1 := { s0 with dup_ack_count := Function.update s0.dup_ack_count ack dc }
    if 3 ≤ dc then
      match lookupA s1.send_base s1.window with
      | some dt =>
          ({ s1 with window := insertA s1.send_base (dt.1, now) s1.window,
                     dup_ack_count := Function.update s1.dup_ack_count ack 0 },
           [s1.send_base])
      | none => (s1, [])
    else (s1, [])
  else if s0.send_base < ack then
    let s1 := match lookupA s0.send_base s0.window with
              | some dt => update_rto s0 (now - dt.2)
              | none => s0
    let s2 := { s1 with send_base := ack,
                        window := s1.window.filter (fun p => ¬ p.1 < ack),
                        dup_ack_count := fun _ => 0 }
    let s3 := if s2.eof_sent = true ∧ s2.eof_seq_num < s2.send_base then
                { s2 with transfer_complete := true }
              else s2
    (s3, [])
  else (s0, [])

end P1Server

namespace P1Client

/-- The mutable fields of `ReliableUDPClient` (p1_client.py) read or
written by `handle_packet`.  `written` is the byte stream appended to the
output file; statistics counters are omitted. -/
structure CState where
  recv_base : ℕ
  recv_buffer : List (ℕ × List ℕ)
  sack_blocks : List (ℕ × ℕ)
  written : List ℕ
  complete : Bool
deriving DecidableEq

/-- The state established by `ReliableUDPClient.__init__` (with an empty
output file). -/
def initC : CState := ⟨0, [], [], [], false⟩

/-- `parse_packet`: datagrams shorter than the 20-byte header are
rejected; otherwise the big-endian sequence number and payload are
returned. -/
def parse_packet (packet : List ℕ) : Option (ℕ × List ℕ) :=
  if packet.length < 20 then none
  else some (rd32 packet 0, packet.drop 20)

/-- Length of the buffered payload stored under key `k`. -/
def bufLen (buf : List (ℕ × List ℕ)) (k : ℕ) : ℕ :=
  ((lookupA k buf).getD []).length

/-- Insertion of one key into a sorted list (used to model Python
`sorted`). -/
def insortNat (x : ℕ) : List ℕ → List ℕ
  | [] => [x]
  | y :: t => if x ≤ y then x :: y :: t else y :: insortNat x t

/-- Ascending sort of buffer keys, modelling `sorted(self.recv_buffer.keys())`. -/
def sortNat (l : List ℕ) : List ℕ := l.foldr insortNat []

/-- Folding of sorted buffered offsets into maximal contiguous (start, end)
runs: the inner loop of `update_sack_blocks`. -/
def sackGo (buf : List (ℕ × List ℕ)) (cs ce : ℕ) : List ℕ → List (ℕ × ℕ)
  | [] => [(cs, ce)]
  | s :: rest =>
      if s = ce then sackGo buf cs (s + bufLen buf s) rest
      else (cs, ce) :: sackGo buf s (s + bufLen buf s) rest

/-- `update_sack_blocks`, as a pure function of the receive buffer: sort
the buffered offsets, fold contiguous runs, keep the first two blocks. -/
def update_sack_blocks (buf : List (ℕ × List ℕ)) : List (ℕ × ℕ) :=
  match sortNat (buf.map Prod.fst) with
  | [] => []
  | s :: rest => (sackGo buf s (s + bufLen buf s) rest).take 2

/-- Result of the buffered-delivery `while` loop inside `handle_packet`:
next expected offset, remaining buffer, output stream, and whether the
buffered EOF marker was reached. -/
structure DrainRes where
  rb : ℕ
  buf : List (ℕ × List ℕ)
  w : List ℕ
  hitEof : Bool
deriving DecidableEq

/-- The `while self.recv_base in self.recv_buffer` loop of
`handle_packet`: deliver consecutive buffered segments; a buffered `EOF`
ends the loop (and the transfer) without being written. -/
def drainGo (rb : ℕ) (buf : List (ℕ × List ℕ)) (w : List ℕ) : DrainRes :=
  match h : lookupA rb buf with
  | none => ⟨rb, buf, w, false⟩
  | some d =>
      if d = EOFb then ⟨rb, eraseA rb buf, w, true⟩
      else drainGo (rb + d.length) (eraseA rb buf) (w ++ d)
termination_by buf.length
decreasing_by exact eraseA_length_lt h

/-- Result of `handle_packet`: the new state, the ACKs sent during the
call (cumulative value paired with the SACK blocks carried), and the
boolean the method returns. -/
structure CResult where
  st : CState
  acks : List (ℕ × List (ℕ × ℕ))
  done : Bool

/-- `handle_packet(seq_num, data)` of p1_client.py. -/
def handle_packet (seq : ℕ) (data : List ℕ) (s : CState) : CResult :=
  if data = EOFb then
    if seq = s.recv_base then
      { st := { s with complete := true },
        acks := List.replicate 3 (seq + 3, []),
        done := true }
    else
      let buf := insertA seq data s.recv_buffer
      let sk := update_sack_blocks buf
      { st := { s with recv_buffer := buf, sack_blocks := sk },
        acks := [(s.recv_base, sk)],
        done := false }
  else if seq = s.recv_base then
    let r := drainGo (s.recv_base + data.length) s.recv_buffer (s.written ++ data)
    if r.hitEof then
      { st := { recv_base := r.rb, recv_buffer := r.buf,
                sack_blocks := s.sack_blocks, written := r.w, complete := true },
        acks := List.replicate 3 (r.rb + 3, []),
        done := true }
    else
      let sk := update_sack_blocks r.buf
      { st := { recv_base := r.rb, recv_buffer := r.buf, sack_blocks := sk,
                written := r.w, complete := s.complete },
        acks := [(r.rb, sk)],
        done := false }
  else if seq < s.recv_base then
    { st := s, acks := [(s.recv_base, s.sack_blocks)], done := false }
  else
    match lookupA seq s.recv_buffer with
    | none =>
        let buf := insertA seq data s.recv_buffer
        let sk := update_sack_blocks buf
        { st := { s with recv_buffer := buf, sack_blocks := sk },
          acks := [(s.recv_base, sk)],
          done := false }
    | some _ =>
        { st := s, acks := [(s.recv_base, s.sack_blocks)], done := false }

/-- State transformer view of `handle_packet`. -/
def hp (seq : ℕ) (data : List ℕ) (s : CState) : CState :=
  (handle_packet seq data s).st

/-- The observable part of the receiver state named by the idempotence
claim: next expected offset, buffer, output stream, terminal flag
(everything except the cached `sack_blocks`). -/
def projC (s : CState) : ℕ × List (ℕ × List ℕ) × List ℕ × Bool :=
  (s.recv_base, s.recv_buffer, s.written, s.complete)

/-- A deliverable segment for the transfer of `file`: either the EOF
marker at offset `file_size`, or a non-empty data segment carrying exactly
the file bytes at its offset that is not itself the literal `EOF` (the
variant A sender produces only such segments when the file does not
contain the literal `EOF` on a segment boundary). -/
def Valid (file : List ℕ) (sg : ℕ × List ℕ) : Prop :=
  (sg.2 = EOFb ∧ sg.1 = file.length) ∨
  (sg.2 ≠ EOFb ∧ sg.2 ≠ [] ∧ sg.1 + sg.2.length ≤ file.length ∧
    sg.2 = (file.drop sg.1).take sg.2.length)

instance (file : List ℕ) (sg : ℕ × List ℕ) : Decidable (Valid file sg) :=
  inferInstanceAs (Decidable
    ((sg.2 = EOFb ∧ sg.1 = file.length) ∨
     (sg.2 ≠ EOFb ∧ sg.2 ≠ [] ∧ sg.1 + sg.2.length ≤ file.length ∧
       sg.2 = (file.drop sg.1).take sg.2.length)))

/-- The receiver invariant tying the written stream to the file: the
output is exactly the file prefix below `recv_base`, `recv_base` never
passes the file end, every buffered segment is a valid segment, and the
terminal flag implies the whole file has been consumed. -/
def Inv (file : List ℕ) (s : CState) : Prop :=
  s.written = file.take s.recv_base ∧ s.recv_base ≤ file.length ∧
  (∀ p ∈ s.recv_buffer, Valid file p) ∧
  (s.complete = true → s.recv_base = file.length)

end P1Client

namespace P2Client

/-- The mutable fields of the part-2 `ReliableUDPClient` read or written
by `handle_packet`. -/
structure C2State where
  next_expected_seq : ℕ
  recv_buffer : List (ℕ × List ℕ)
  written : List ℕ
deriving DecidableEq

/-- The state established by the part-2 client `__init__`. -/
def initC2 : C2State := ⟨0, [], []⟩

/-- Result of the part-2 `process_buffered_packets` loop. -/
structure PBRes where
  next : ℕ
  buf : List (ℕ × List ℕ)
  w : List ℕ
deriving DecidableEq

/-- `process_buffered_packets`: deliver consecutive buffered segments
(no EOF check — a buffered `EOF` payload would be written like data). -/
def process_buffered_packets (next : ℕ) (buf : List (ℕ × List ℕ))
    (w : List ℕ) : PBRes :=
  match h : lookupA next buf with
  | none => ⟨next, buf, w⟩
  | some d => process_buffered_packets (next + d.length) (eraseA next buf) (w ++ d)
termination_by buf.length
decreasing_by exact eraseA_length_lt h

/-- Result of the part-2 `handle_packet`: new state, ACKs sent (cumulative
value, echoed timestamp), and the returned completion boolean. -/
structure C2Result where
  st : C2State
  acks : List (ℕ × ℚ)
  done : Bool

/-- `handle_packet(seq, timestamp, data)` of p2_client.py.  An `EOF`
payload immediately completes the transfer, acknowledging the EOF's own
sequence number, regardless of `next_expected_seq`. -/
def handle_packet (seq : ℕ) (ts : ℚ) (data : List ℕ) (s : C2State) :
    C2Result :=
  if data = EOFb then
    { st := s, acks := [(seq, ts)], done := true }
  else if seq = s.next_expected_seq then
    let r := process_buffered_packets (seq + data.length) s.recv_buffer
               (s.written ++ data)
    { st := ⟨r.next, r.buf, r.w⟩, acks := [(r.next, ts)], done := false }
  else if s.next_expected_seq < seq then
    match lookupA seq s.recv_buffer with
    | none =>
        { st := { s with recv_buffer := insertA seq data s.recv_buffer },
          acks := [(s.next_expected_seq, ts)], done := false }
    | some _ =>
        { st := s, acks := [(s.next_expected_seq, ts)], done := false }
  else
    { st := s, acks := [(s.next_expected_seq, ts)], done := false }

end P2Client

namespace P2Server

/-- Bytes of the maximum segment size, `self.MSS = 1180`, as a rational
for the congestion arithmetic. -/
def MSS : ℚ := 1180

/-- The mutable fields of `CongestionControlServer` (p2_server.py) read or
written by the embedded operations.  The sequentially read file handle is
modelled by `file_data` plus the invariant that the read position always
equals `next_seq_to_prepare`; `in_flight` maps an offset to
(send time, retransmission count). -/
structure BState where
  file_data : List ℕ
  next_seq_to_prepare : ℕ
  send_buffer : List (ℕ × List ℕ)
  in_flight : List (ℕ × ℚ × ℕ)
  LAR : ℕ
  LFS : ℕ
  cwnd : ℚ
  ssthresh : ℚ
  in_slow_start : Bool
  in_fast_recovery : Bool
  recovery_point : ℕ
  last_ack : ℕ
  dup_ack_count : ℕ
  estimated_rtt : ℚ
  dev_rtt : ℚ
  rto : ℚ
deriving DecidableEq

/-- The state established by `CongestionControlServer.__init__` after
`load_file` has recorded the file contents. -/
def initB (file : List ℕ) : BState where
  file_data := file
  next_seq_to_prepare := 0
  send_buffer := []
  in_flight := []
  LAR := 0
  LFS := 0
  cwnd := MSS
  ssthresh := 64000
  in_slow_start := true
  in_fast_recovery := false
  recovery_point := 0
  last_ack := 0
  dup_ack_count := 0
  estimated_rtt := 1 / 2
  dev_rtt := 1 / 4
  rto := 1

/-- `update_rtt`: ignore non-positive samples, otherwise apply the
RFC 6298 exponentially weighted update (with the dead
`estimated_rtt == 0` initialisation branch) and clamp the RTO to
`[min_rto, max_rto] = [0.2, 60]`. -/
def update_rtt (s : BState) (sample : ℚ) : BState :=
  if sample ≤ 0 then s
  else
    let e := if s.estimated_rtt = 0 then sample
             else (1 - 1 / 8) * s.estimated_rtt + (1 / 8) * sample
    let d := if s.estimated_rtt = 0 then sample / 2
             else (1 - 1 / 4) * s.dev_rtt + (1 / 4) * |sample - e|
    { s with estimated_rtt := e, dev_rtt := d,
             rto := max (2 / 10) (min (e + 4 * d) 60) }

/-- `increase_cwnd(bytes_acked)`: exponential growth in slow start
(leaving slow start once `cwnd ≥ ssthresh`), additive
`MSS · bytes_acked / cwnd` growth in congestion avoidance. -/
def increase_cwnd (s : BState) (bytes_acked : ℕ) : BState :=
  if s.in_slow_start then
    let c := s.cwnd + bytes_acked
    if s.ssthresh ≤ c then { s with cwnd := c, in_slow_start := false }
    else { s with cwnd := c }
  else
    { s with cwnd := s.cwnd + MSS * bytes_acked / s.cwnd }

/-- `send_packet(seq, data)` at time `now`: record or refresh the
in-flight entry (the datagram itself is not modelled). -/
def send_packet (s : BState) (seq : ℕ) (now : ℚ) : BState :=
  match lookupA seq s.in_flight with
  | none => { s with in_flight := insertA seq (now, 0) s.in_flight }
  | some p => { s with in_flight := insertA seq (now, p.2 + 1) s.in_flight }

theorem send_packet_next_seq (s : BState) (seq : ℕ) (now : ℚ) :
    (send_packet s seq now).next_seq_to_prepare = s.next_seq_to_prepare := by
  unfold send_packet
  cases lookupA seq s.in_flight <;> rfl

/-- Read-ahead target of `ensure_buffer_filled`:
`min(LAR + int(cwnd * 4), file_size)`. -/
def fillTarget (s : BState) : ℕ :=
  min ((↑s.LAR + pyInt (s.cwnd * 4)).toNat) s.file_data.length

/-- The read loop of `ensure_buffer_filled`: read 1180-byte chunks from
the current file position (`next_seq_to_prepare`) until the target is
reached or the file is exhausted. -/
def fillLoop (s : BState) (target : ℕ) : BState :=
  if h : s.next_seq_to_prepare < target then
    let chunk := (s.file_data.drop s.next_seq_to_prepare).take 1180
    if hc : chunk = [] then s
    else fillLoop
      { s with send_buffer := insertA s.next_seq_to_prepare chunk s.send_buffer,
               next_seq_to_prepare := s.next_seq_to_prepare + chunk.length }
      target
  else s
termination_by target - s.next_seq_to_prepare
decreasing_by
  have hl := List.length_pos.mpr hc
  unfold chunk at hl
  simp only [List.length_take, List.length_drop] at hl
  simp_wf
  omega

/-- `ensure_buffer_filled`. -/
def ensure_buffer_filled (s : BState) : BState :=
  fillLoop s (fillTarget s)

/-- `clean_old_packets`: drop buffered chunks below
`max(0, LAR - int(cwnd * 2))`. -/
def clean_old_packets (s : BState) : BState :=
  let threshold := (max 0 (↑s.LAR - pyInt (s.cwnd * 2))).toNat
  { s with send_buffer := s.send_buffer.filter (fun p => ¬ p.1 < threshold) }

/-- The transmit loop of `send_packets_in_window` with the effective
window `w = int(cwnd)` computed once up front.  A missing or empty buffer
entry halts the loop (the source would raise or spin there; neither state
is reachable in a run). -/
def sendLoop (s : BState) (w : ℤ) (now : ℚ) : BState :=
  if h : (↑s.LFS - ↑s.LAR : ℤ) < w ∧ s.LFS < s.next_seq_to_prepare then
    match lookupA s.LFS s.send_buffer with
    | none => s
    | some d =>
        if hd : d = [] then s
        else
          let s' := send_packet s s.LFS now
          sendLoop { s' with LFS := s.LFS + d.length } w now
  else s
termination_by s.next_seq_to_prepare - s.LFS
decreasing_by
  have hlen : 0 < d.length := List.length_pos.mpr hd
  simp only [send_packet_next_seq]
  omega

/-- `send_packets_in_window`. -/
def send_packets_in_window (s : BState) (now : ℚ) : BState :=
  sendLoop s (pyInt s.cwnd) now

/-- The RTT-sampling prelude of `handle_ack`: if the echoed timestamp is
positive and the ACKed offset is in flight, feed the sample to
`update_rtt` (which itself ignores non-positive samples, as does the
guard in the source). -/
def handle_ack_rtt (s : BState) (ack : ℕ) (echo : ℚ) (now : ℚ) : BState :=
  if 0 < echo then
    match lookupA ack s.in_flight with
    | some p => update_rtt s (now - p.1)
    | none => s
  else s

/-- The congestion-control body of `handle_ack`, applied after the RTT
prelude. -/
def handle_ack_core (s0 : BState) (ack : ℕ) (now : ℚ) : BState :=
  if s0.last_ack < ack then
    let bytes := ack - s0.last_ack
    let s1 := if s0.in_fast_recovery then
                { s0 with in_fast_recovery := false, cwnd := s0.ssthresh }
              else s0
    let s2 := increase_cwnd s1 bytes
    let s3 := { s2 with LAR := ack, last_ack := ack, dup_ack_count := 0,
                        in_flight := s2.in_flight.filter (fun p => ¬ p.1 < ack) }
    let s4 := clean_old_packets s3
    let s5 := ensure_buffer_filled s4
    send_packets_in_window s5 now
  else if ack = s0.last_ack then
    let s1 := { s0 with dup_ack_count := s0.dup_ack_count + 1 }
    if s1.in_fast_recovery then
      send_packets_in_window { s1 with cwnd := s1.cwnd + MSS } now
    else if s1.dup_ack_count = 3 then
      let ss := max (s1.cwnd / 2) (2 * MSS)
      let s2 := { s1 with ssthresh := ss, cwnd := ss + 3 * MSS,
                          in_fast_recovery := true, recovery_point := s1.LFS,
                          in_slow_start := false }
      match lookupA ack s2.send_buffer with
      | some _ => send_packet s2 ack now
      | none => s2
    else s1
  else s0

/-- `handle_ack(ack_num, timestamp_echo)` at time `now`. -/
def handle_ack (s : BState) (ack : ℕ) (echo : ℚ) (now : ℚ) : BState :=
  handle_ack_core (handle_ack_rtt s ack echo now) ack now

/-- `get_oldest_unacked_seq`. -/
def get_oldest_unacked_seq (s : BState) : Option ℕ :=
  (s.in_flight.map Prod.fst).min?

/-- `handle_timeout` at time `now`: collapse to slow start and retransmit
the oldest unacknowledged segment with exponential RTO backoff. -/
def handle_timeout (s : BState) (now : ℚ) : BState :=
  match get_oldest_unacked_seq s with
  | none => s
  | some seq =>
      let s1 := { s with ssthresh := max (s.cwnd / 2) (2 * MSS), cwnd := MSS,
                         in_slow_start := true, in_fast_recovery := false }
      match lookupA seq s1.send_buffer with
      | some _ =>
          let s2 := send_packet s1 seq now
          { s2 with rto := min (s2.rto * 2) 60 }
      | none => s1

/-- Sender states reachable from the freshly initialised server (for the
file `file`) by the congestion-control operations. -/
inductive Reach (file : List ℕ) : BState → Prop
  | init : Reach file (initB file)
  | ack (s : BState) (a : ℕ) (echo now : ℚ) :
      Reach file s → Reach file (handle_ack s a echo now)
  | inc (s : BState) (bytes : ℕ) :
      Reach file s → Reach file (increase_cwnd s bytes)
  | tmo (s : BState) (now : ℚ) :
      Reach file s → Reach file (handle_timeout s now)
  | fill (s : BState) :
      Reach file s → Reach file (ensure_buffer_filled s)
  | sendw (s : BState) (now : ℚ) :
      Reach file s → Reach file (send_packets_in_window s now)

/-- The 1180-byte file used in the fast-recovery counterexample trace. -/
def c3_file : List ℕ := List.replicate 1180 0

/-- The sender state after `ensure_buffer_filled` has read the single
chunk of the file. -/
def c3_filled : BState :=
  { initB c3_file with send_buffer := [(0, c3_file)],
                       next_seq_to_prepare := 1180 }

/-- The sender state right after the `run` preamble: buffer filled and the
first (only) chunk sent. -/
def c3_ready : BState :=
  { c3_filled with in_flight := [(0, (0, 0))], LFS := 1180 }

/-- The fast-recovery state reached after three duplicate ACKs of value 0:
`in_fast_recovery` with `recovery_point = 1180` and `last_ack = 0`. -/
def c3_s5 : BState :=
  handle_ack (handle_ack (handle_ack c3_ready 0 0 1) 0 0 2) 0 0 3

end P2Server

namespace P1Server

/-- A variant A sender state with three in-flight segments (offsets 0,
1180 and 3540, each sent at time 0) and two duplicate ACKs of value 0
already recorded, used as the fast-retransmit counterexample input. -/
def c5_state : SState :=
  { initS with
      window := [(0, ([7], 0)), (1180, ([7], 0)), (3540, ([7], 0))],
      dup_ack_count := Function.update (fun _ => 0) 0 2 }

end P1Server

/-! Claim C9: codec round trip for the variant A wire format. -/

/-- C9: for every sequence number `s < 2^32` and payload `d`, the variant A
receiver's `parse_packet` inverts the variant A sender's
`create_packet s d`, returning exactly `(s, d)`: the 20-octet header
(4-octet big-endian offset plus 16 zero octets) is inverted without
loss. -/
theorem c9_codec_round_trip (s : ℕ) (d : List ℕ) (hs : s < 2 ^ 32) :
    P1Client.parse_packet (P1Server.create_packet s d) = some (s, d) := by
  have hlen : (P1Server.create_packet s d).length = 20 + d.length := by
    simp [P1Server.create_packet, be32]
    omega
  have hnot : ¬ (P1Server.create_packet s d).length < 20 := by omega
  have hdrop : (P1Server.create_packet s d).drop 20 = d := by
    have h20 : (be32 s ++ List.replicate 16 0).length = 20 := by simp [be32]
    calc (P1Server.create_packet s d).drop 20
        = ((be32 s ++ List.replicate 16 0) ++ d).drop 20 := by
          simp [P1Server.create_packet]
      _ = d := List.drop_left' h20
  have hrd : rd32 (P1Server.create_packet s d) 0 = s := by
    simp only [P1Server.create_packet, be32, rd32, List.cons_append,
      List.nil_append, List.getD_cons_zero, List.getD_cons_succ]
    omega
  simp [P1Client.parse_packet, hnot, hrd, hdrop]

/-- Witness for C9 at `s = 7`, `d = [1, 2]`. -/
theorem c9_codec_round_trip_witness :
    P1Client.parse_packet (P1Server.create_packet 7 [1, 2]) = some (7, [1, 2]) :=
  c9_codec_round_trip 7 [1, 2] (by decide)

/-! Claim C4: which SACK pairs `parse_ack` keeps. -/

/-- C4 counterexample: on a 20-byte ACK carrying cumulative value 100 and
the SACK pair (50, 60), `parse_ack` returns the pair even though
`start = 50 < cum = 100`; the claimed `start ≥ cum` condition is not
checked by the code. -/
theorem c4_counterexample :
    P1Server.parse_ack (be32 100 ++ be32 50 ++ be32 60 ++ be32 0 ++ be32 0)
        = (some 100, [(50, 60)]) ∧
      (50 : ℕ) < 100 ∧
      20 ≤ (be32 100 ++ be32 50 ++ be32 60 ++ be32 0 ++ be32 0).length := by
  decide

/-- C4 (amended): for every ACK datagram of length at least 20,
`parse_ack` returns the big-endian cumulative offset read from bytes 0..3
together with exactly those of the two candidate (start, end) pairs of the
16-octet SACK field that satisfy `0 < start < end`; pairs failing this are
silently dropped, and the cumulative value plays no role in the
filtering. -/
theorem c4_parse_ack_amended (pkt : List ℕ) (h : 20 ≤ pkt.length) :
    (P1Server.parse_ack pkt).1 = some (rd32 pkt 0) ∧
    ∀ p : ℕ × ℕ,
      p ∈ (P1Server.parse_ack pkt).2 ↔
        ((p = (rd32 pkt 4, rd32 pkt 8) ∨ p = (rd32 pkt 12, rd32 pkt 16)) ∧
          0 < p.1 ∧ p.1 < p.2) := by
  have h4 : ¬ pkt.length < 4 := by omega
  refine ⟨by simp [P1Server.parse_ack, h4], fun p => ?_⟩
  by_cases h1 : 0 < rd32 pkt 4 ∧ rd32 pkt 4 < rd32 pkt 8 <;>
    by_cases h2 : 0 < rd32 pkt 12 ∧ rd32 pkt 12 < rd32 pkt 16
  · simp only [P1Server.parse_ack, h4, if_neg, if_pos h1, if_pos h2, h, if_true,
      ite_false, ite_true, List.mem_append, List.mem_singleton]
    constructor
    · rintro (rfl | rfl)
      · exact ⟨Or.inl rfl, h1⟩
      · exact ⟨Or.inr rfl, h2⟩
    · rintro ⟨hm | hm, _⟩ <;> simp [hm]
  · simp only [P1Server.parse_ack, h4, if_pos h1, if_neg h2, h, if_true,
      ite_false, ite_true, List.append_nil, List.mem_singleton]
    constructor
    · rintro rfl
      exact ⟨Or.inl rfl, h1⟩
    · rintro ⟨rfl | rfl, hc⟩
      · rfl
      · exact absurd (by simpa using hc) h2
  · simp only [P1Server.parse_ack, h4, if_neg h1, if_pos h2, h, if_true,
      ite_false, ite_true, List.nil_append, List.mem_singleton]
    constructor
    · rintro rfl
      exact ⟨Or.inr rfl, h2⟩
    · rintro ⟨rfl | rfl, hc⟩
      · exact absurd (by simpa using hc) h1
      · rfl
  · simp only [P1Server.parse_ack, h4, if_neg h1, if_neg h2, h, if_true,
      ite_false, ite_true, List.append_nil, List.not_mem_nil]
    constructor
    · rintro ⟨⟩
    · rintro ⟨rfl | rfl, hc⟩
      · exact absurd (by simpa using hc) h1
      · exact absurd (by simpa using hc) h2

/-- Witness for C4 (amended) at a concrete 20-byte ACK datagram. -/
theorem c4_parse_ack_amended_witness :
    (P1Server.parse_ack (be32 9 ++ be32 50 ++ be32 60 ++ be32 0 ++ be32 0)).1
        = some (rd32 (be32 9 ++ be32 50 ++ be32 60 ++ be32 0 ++ be32 0) 0) ∧
      ((50, 60) ∈
        (P1Server.parse_ack (be32 9 ++ be32 50 ++ be32 60 ++ be32 0 ++ be32 0)).2 ↔
        (((50, 60) : ℕ × ℕ) =
            (rd32 (be32 9 ++ be32 50 ++ be32 60 ++ be32 0 ++ be32 0) 4,
             rd32 (be32 9 ++ be32 50 ++ be32 60 ++ be32 0 ++ be32 0) 8) ∨
          ((50, 60) : ℕ × ℕ) =
            (rd32 (be32 9 ++ be32 50 ++ be32 60 ++ be32 0 ++ be32 0) 12,
             rd32 (be32 9 ++ be32 50 ++ be32 60 ++ be32 0 ++ be32 0) 16)) ∧
          0 < (50 : ℕ) ∧ (50 : ℕ) < 60) :=
  ⟨(c4_parse_ack_amended _ (by decide)).1,
   (c4_parse_ack_amended _ (by decide)).2 (50, 60)⟩

/-! Claim C6: the RTO clamp of the variant A estimator. -/

/-- C6 counterexample: from the initial estimator state the single
non-negative sample 10 s drives `rto` to exactly 3 s, outside the claimed
clamp `[0.1, 2.0]`; the code clamps to `[0.1, 3.0]`. -/
theorem c6_counterexample :
    (P1Server.update_rto P1Server.initS 10).rto = 3 ∧
      ¬ (P1Server.update_rto P1Server.initS 10).rto ≤ 2 ∧ (0 : ℚ) ≤ 10 := by
  have h0 : P1Server.initS.estimated_rtt ≠ 0 := by norm_num [P1Server.initS]
  have key : (P1Server.update_rto P1Server.initS 10).rto = 3 := by
    simp only [P1Server.update_rto, if_neg h0]
    rw [abs_of_nonneg (by norm_num [P1Server.alpha, P1Server.initS] :
      (0 : ℚ) ≤ 10 - ((1 - P1Server.alpha) * P1Server.initS.estimated_rtt +
        P1Server.alpha * 10))]
    rw [min_eq_left (by norm_num [P1Server.alpha, P1Server.beta, P1Server.initS])]
    exact max_eq_right (by norm_num)
  exact ⟨key, by rw [key]; norm_num, by norm_num⟩

/-- C6 (amended): after any sequence of non-negative RTT samples the
variant A estimator's `rto` lies in the clamp `[0.1, 3.0]` — the code's
upper bound is 3 s, not the claimed 2 s — and `estimated_rtt` and
`dev_rtt` remain non-negative rationals (in particular finite). -/
theorem c6_rto_clamped (samples : List ℚ) (h : ∀ r ∈ samples, 0 ≤ r) :
    (1 / 10 ≤ (samples.foldl P1Server.update_rto P1Server.initS).rto ∧
      (samples.foldl P1Server.update_rto P1Server.initS).rto ≤ 3) ∧
    0 ≤ (samples.foldl P1Server.update_rto P1Server.initS).estimated_rtt ∧
    0 ≤ (samples.foldl P1Server.update_rto P1Server.initS).dev_rtt := by
  suffices key : ∀ (l : List ℚ) (s : P1Server.SState), (∀ r ∈ l, 0 ≤ r) →
      0 ≤ s.estimated_rtt → 0 ≤ s.dev_rtt → 1 / 10 ≤ s.rto → s.rto ≤ 3 →
      (1 / 10 ≤ (l.foldl P1Server.update_rto s).rto ∧
        (l.foldl P1Server.update_rto s).rto ≤ 3) ∧
      0 ≤ (l.foldl P1Server.update_rto s).estimated_rtt ∧
      0 ≤ (l.foldl P1Server.update_rto s).dev_rtt by
    exact key samples P1Server.initS h (by norm_num [P1Server.initS])
      (by norm_num [P1Server.initS]) (by norm_num [P1Server.initS])
      (by norm_num [P1Server.initS])
  intro l
  induction l with
  | nil => intro s _ he hd h1 h2; exact ⟨⟨h1, h2⟩, he, hd⟩
  | cons r t ih =>
      intro s hl he hd _ _
      have hr : 0 ≤ r := hl r (List.mem_cons_self _ _)
      have ht : ∀ x ∈ t, 0 ≤ x := fun x hx => hl x (List.mem_cons_of_mem _ hx)
      simp only [List.foldl_cons]
      refine ih (P1Server.update_rto s r) ht ?_ ?_ ?_ ?_
      · simp only [P1Server.update_rto]
        split
        · exact hr
        · have h1 : (0 : ℚ) ≤ P1Server.alpha := by norm_num [P1Server.alpha]
          have h2 : (0 : ℚ) ≤ (1 - P1Server.alpha) := by norm_num [P1Server.alpha]
          nlinarith [mul_nonneg h2 he, mul_nonneg h1 hr]
      · simp only [P1Server.update_rto]
        split
        · linarith
        · have h1 : (0 : ℚ) ≤ (1 - P1Server.beta) * s.dev_rtt := by
            have : (0 : ℚ) ≤ (1 - P1Server.beta) := by norm_num [P1Server.beta]
            exact mul_nonneg this hd
          have h2 : (0 : ℚ) ≤ P1Server.beta *
              |r - ((1 - P1Server.alpha) * s.estimated_rtt + P1Server.alpha * r)| := by
            have : (0 : ℚ) ≤ P1Server.beta := by norm_num [P1Server.beta]
            exact mul_nonneg this (abs_nonneg _)
          linarith
      · simp only [P1Server.update_rto]
        exact le_max_left _ _
      · simp only [P1Server.update_rto]
        exact max_le (by norm_num) (min_le_left _ _)

/-- Witness for C6 (amended) at the sample list `[1, 2]`. -/
theorem c6_rto_clamped_witness :
    (1 / 10 ≤ ([1, 2].foldl P1Server.update_rto P1Server.initS).rto ∧
      ([1, 2].foldl P1Server.update_rto P1Server.initS).rto ≤ 3) ∧
    0 ≤ ([1, 2].foldl P1Server.update_rto P1Server.initS).estimated_rtt ∧
    0 ≤ ([1, 2].foldl P1Server.update_rto P1Server.initS).dev_rtt :=
  c6_rto_clamped [1, 2] (by norm_num)

/-! Claim C7: the first RTT sample does not get the initialisation
update. -/

/-- C7 counterexample: processing the first sample `r = 1` from the
initial state sets neither `srtt = r` nor `rttvar = r/2` in either
variant: both initialise `estimated_rtt` to a non-zero warm-start value
(0.1 s in variant A, 0.5 s in variant B), so the `estimated_rtt == 0`
initialisation branch never fires from the initial state. -/
theorem c7_counterexample :
    (P1Server.update_rto P1Server.initS 1).estimated_rtt ≠ 1 ∧
    (P1Server.update_rto P1Server.initS 1).dev_rtt ≠ 1 / 2 ∧
    (P2Server.update_rtt (P2Server.initB []) 1).estimated_rtt ≠ 1 ∧
    (P2Server.update_rtt (P2Server.initB []) 1).dev_rtt ≠ 1 / 2 ∧
    (0 : ℚ) < 1 := by
  have h0 : P1Server.initS.estimated_rtt ≠ 0 := by norm_num [P1Server.initS]
  have h0' : (P2Server.initB []).estimated_rtt ≠ 0 := by norm_num [P2Server.initB]
  have hr : ¬ (1 : ℚ) ≤ 0 := by norm_num
  refine ⟨?_, ?_, ?_, ?_, by norm_num⟩
  · simp only [P1Server.update_rto, if_neg h0]
    norm_num [P1Server.alpha, P1Server.initS]
  · simp only [P1Server.update_rto, if_neg h0]
    rw [abs_of_nonneg (by norm_num [P1Server.alpha, P1Server.initS] :
      (0 : ℚ) ≤ 1 - ((1 - P1Server.alpha) * P1Server.initS.estimated_rtt +
        P1Server.alpha * 1))]
    norm_num [P1Server.alpha, P1Server.beta, P1Server.initS]
  · simp only [P2Server.update_rtt, if_neg hr, if_neg h0']
    norm_num [P2Server.initB]
  · simp only [P2Server.update_rtt, if_neg hr, if_neg h0']
    rw [abs_of_nonneg (by norm_num [P2Server.initB] :
      (0 : ℚ) ≤ 1 - ((1 - 1 / 8) * (P2Server.initB []).estimated_rtt +
        (1 / 8) * 1))]
    norm_num [P2Server.initB]

/-- C7 (amended): the `srtt = r, rttvar = r/2` initialisation applies only
to states whose `estimated_rtt` is zero; since variant A initialises
`estimated_rtt = 0.1` and variant B `0.5`, the first sample processed from
the initial state already uses the exponentially weighted update with
`alpha = 1/8` in both variants. -/
theorem c7_first_sample_amended (file : List ℕ) (r : ℚ) (hr : 0 < r) :
    (P1Server.update_rto P1Server.initS r).estimated_rtt
        = (1 - P1Server.alpha) * P1Server.initS.estimated_rtt + P1Server.alpha * r ∧
    (P2Server.update_rtt (P2Server.initB file) r).estimated_rtt
        = (1 - 1 / 8) * (P2Server.initB file).estimated_rtt + (1 / 8) * r ∧
    ∀ s : P1Server.SState, s.estimated_rtt = 0 →
      (P1Server.update_rto s r).estimated_rtt = r ∧
      (P1Server.update_rto s r).dev_rtt = r / 2 := by
  refine ⟨?_, ?_, ?_⟩
  · have h0 : P1Server.initS.estimated_rtt ≠ 0 := by norm_num [P1Server.initS]
    simp [P1Server.update_rto, h0]
  · have h0 : (P2Server.initB file).estimated_rtt ≠ 0 := by
      norm_num [P2Server.initB]
    have hr' : ¬ r ≤ 0 := not_le.mpr hr
    simp [P2Server.update_rtt, hr', h0]
  · intro s hs
    simp [P1Server.update_rto, hs]

/-- Witness for C7 (amended) at `file = []`, `r = 1`. -/
theorem c7_first_sample_amended_witness :
    (P1Server.update_rto P1Server.initS 1).estimated_rtt
        = (1 - P1Server.alpha) * P1Server.initS.estimated_rtt + P1Server.alpha * 1 :=
  (c7_first_sample_amended [] 1 (by norm_num)).1

/-! Claim C2: the receiver's handling of an EOF segment. -/

/-- C2 counterexample: the variant B receiver handed an EOF at offset 5
while expecting offset 0 sets the terminal flag anyway (done = true),
buffers nothing, and sends a single ACK carrying the EOF's own offset —
contradicting the claim that an out-of-place EOF is buffered without
completing. -/
theorem c2_counterexample :
    (P2Client.handle_packet 5 0 EOFb P2Client.initC2).done = true ∧
    (5 : ℕ) ≠ P2Client.initC2.next_expected_seq ∧
    (P2Client.handle_packet 5 0 EOFb P2Client.initC2).st.recv_buffer = [] ∧
    (P2Client.handle_packet 5 0 EOFb P2Client.initC2).acks.map Prod.fst = [5] := by
  decide

/-- C2 (amended): the claimed behaviour holds for the variant A receiver:
an EOF segment at `recv_base` sets `complete`, sends three copies of an
ACK with cumulative value `offset + 3` and reports done, while an EOF at
any other offset is buffered like an out-of-order segment and answered
with one cumulative ACK carrying the recomputed SACK blocks, without
completing.  (The variant B receiver instead completes on any EOF, per the
counterexample.) -/
theorem c2_varA_eof_amended (s : P1Client.CState) (off : ℕ) :
    (off = s.recv_base →
      P1Client.handle_packet off EOFb s =
        { st := { s with complete := true },
          acks := List.replicate 3 (off + 3, []), done := true }) ∧
    (off ≠ s.recv_base →
      (P1Client.handle_packet off EOFb s).done = false ∧
      (P1Client.handle_packet off EOFb s).st.complete = s.complete ∧
      (P1Client.handle_packet off EOFb s).st.recv_base = s.recv_base ∧
      (P1Client.handle_packet off EOFb s).st.recv_buffer
          = insertA off EOFb s.recv_buffer ∧
      (P1Client.handle_packet off EOFb s).acks
          = [(s.recv_base,
              P1Client.update_sack_blocks (insertA off EOFb s.recv_buffer))]) := by
  constructor
  · intro h
    simp [P1Client.handle_packet, h]
  · intro h
    simp [P1Client.handle_packet, h]

/-- Witness for C2 (amended) at the initial variant A receiver state with
an EOF at offset 0. -/
theorem c2_varA_eof_amended_witness :
    P1Client.handle_packet 0 EOFb P1Client.initC =
      { st := { P1Client.initC with complete := true },
        acks := List.replicate 3 (0 + 3, []), done := true } :=
  (c2_varA_eof_amended P1Client.initC 0).1 rfl

/-! Claim C1: what has been written when the receiver completes. -/

/-- C1 counterexample: for the three-byte file [7, 8, 9], delivering only
the variant B sender's EOF segment (offset `file_size = 3`, payload
`EOF`) to the fresh variant B receiver completes the transfer with nothing
written, so on `complete` the bytes written are not `[0, file_size)`. -/
theorem c1_counterexample :
    (P2Client.handle_packet ([7, 8, 9] : List ℕ).length 0 EOFb
        P2Client.initC2).done = true ∧
    (P2Client.handle_packet ([7, 8, 9] : List ℕ).length 0 EOFb
        P2Client.initC2).st.written = [] ∧
    ([] : List ℕ) ≠ [7, 8, 9] := by
  decide

/-! Claim C5: which segments `handle_ack` retransmits on a triple
duplicate ACK. -/

/-- C5 counterexample: in the state `c5_state` (in-flight offsets 0, 1180
and 3540, two duplicate ACKs recorded), a third duplicate ACK of value 0
arriving with the SACK block (2360, 3540) retransmits only offset 0: the
in-flight offset 1180 lies before the first SACK block start, is not
SACKed, and satisfies the claimed `now − last-send-time > rto/2` gate,
yet it is not retransmitted — `handle_ack` has no SACK-driven selective
retransmit. -/
theorem c5_counterexample :
    (P1Server.handle_ack P1Server.c5_state 0 [(2360, 3540)] 10).2 = [0] ∧
    ¬ (1180 ∈ (P1Server.handle_ack P1Server.c5_state 0 [(2360, 3540)] 10).2) ∧
    (lookupA 1180 P1Server.c5_state.window).isSome = true ∧
    (1180 : ℕ) < 2360 ∧
    P1Server.c5_state.dup_ack_count 0 + 1 = 3 ∧
    P1Server.c5_state.rto / 2 < 10 - 0 := by
  refine ⟨by decide, by decide, by decide, by decide, by decide, ?_⟩
  norm_num [P1Server.c5_state, P1Server.initS]

/-- C5 (amended): on any ACK, the variant A `handle_ack` retransmits
exactly the segment at `send_base`, and only when the ACK equals
`send_base`, the duplicate count reaches the threshold of three, and
`send_base` is still in the window; no other offset — in particular no
SACK hole — is ever retransmitted by this handler. -/
theorem c5_retransmit_only_base (s : P1Server.SState) (ack : ℕ)
    (sacks : List (ℕ × ℕ)) (now : ℚ) :
    (P1Server.handle_ack s ack sacks now).2 =
      if ack = s.send_base ∧ 3 ≤ s.dup_ack_count ack + 1 ∧
          (lookupA s.send_base s.window).isSome = true
      then [s.send_base] else [] := by
  unfold P1Server.handle_ack
  dsimp only
  by_cases h1 : ack = s.send_base
  · subst h1
    by_cases h2 : 3 ≤ s.dup_ack_count s.send_base + 1
    · have h2' : 2 ≤ s.dup_ack_count s.send_base := by omega
      cases h3 : lookupA s.send_base s.window with
      | none => simp [h2', h3]
      | some dt => simp [h2', h3]
    · have h2' : ¬ 2 ≤ s.dup_ack_count s.send_base := by omega
      simp [h2']
  · simp only [if_neg h1]
    by_cases h4 : s.send_base < ack
    · simp [h1, h4]
    · simp [h1, h4]

namespace P2Server

/-! Helper lemmas about the part-2 congestion-control operations: each
operation's effect on the phase flags, `last_ack` and related fields. -/

theorem update_rtt_aux (s : BState) (r : ℚ) :
    (update_rtt s r).in_slow_start = s.in_slow_start ∧
    (update_rtt s r).in_fast_recovery = s.in_fast_recovery ∧
    (update_rtt s r).last_ack = s.last_ack := by
  unfold update_rtt
  split <;> simp

theorem send_packet_aux (s : BState) (seq : ℕ) (now : ℚ) :
    (send_packet s seq now).in_slow_start = s.in_slow_start ∧
    (send_packet s seq now).in_fast_recovery = s.in_fast_recovery ∧
    (send_packet s seq now).last_ack = s.last_ack := by
  unfold send_packet
  cases lookupA seq s.in_flight <;> simp

theorem send_packet_more_aux (s : BState) (seq : ℕ) (now : ℚ) :
    (send_packet s seq now).recovery_point = s.recovery_point ∧
    (send_packet s seq now).LAR = s.LAR ∧
    (send_packet s seq now).LFS = s.LFS := by
  unfold send_packet
  cases lookupA seq s.in_flight <;> simp

theorem fillLoop_aux (s : BState) (target : ℕ) :
    (fillLoop s target).in_slow_start = s.in_slow_start ∧
    (fillLoop s target).in_fast_recovery = s.in_fast_recovery ∧
    (fillLoop s target).last_ack = s.last_ack := by
  induction s, target using fillLoop.induct with
  | case1 s target h chunk hc =>
      unfold chunk at hc
      rw [fillLoop.eq_def, dif_pos h]
      dsimp only
      rw [dif_pos hc]
      exact ⟨by trivial, by trivial, by trivial⟩
  | case2 s target h chunk hc ih =>
      unfold chunk at hc ih
      rw [fillLoop.eq_def, dif_pos h]
      dsimp only
      rw [dif_neg hc]
      try dsimp only at ih
      exact ih
  | case3 s target h =>
      rw [fillLoop.eq_def, dif_neg h]
      exact ⟨by trivial, by trivial, by trivial⟩

theorem sendLoop_aux (s : BState) (w : ℤ) (now : ℚ) :
    (sendLoop s w now).in_slow_start = s.in_slow_start ∧
    (sendLoop s w now).in_fast_recovery = s.in_fast_recovery ∧
    (sendLoop s w now).last_ack = s.last_ack := by
  induction s, w, now using sendLoop.induct with
  | case1 s w now h hm =>
      rw [sendLoop.eq_def, dif_pos h]
      simp only [hm]
      exact ⟨by trivial, by trivial, by trivial⟩
  | case2 s w now h hm =>
      rw [sendLoop.eq_def, dif_pos h]
      simp only [hm]
      exact ⟨by trivial, by trivial, by trivial⟩
  | case3 s w now h val hm hval s' ih =>
      rw [sendLoop.eq_def, dif_pos h]
      simp only [hm]
      rw [dif_neg hval]
      unfold s' at ih
      try dsimp only at ih
      try dsimp only
      obtain ⟨i1, i2, i3⟩ := ih
      obtain ⟨p1, p2, p3⟩ := send_packet_aux s s.LFS now
      exact ⟨i1.trans p1, i2.trans p2, i3.trans p3⟩
  | case4 s w now h =>
      rw [sendLoop.eq_def, dif_neg h]
      exact ⟨by trivial, by trivial, by trivial⟩

theorem clean_old_aux (s : BState) :
    (clean_old_packets s).in_slow_start = s.in_slow_start ∧
    (clean_old_packets s).in_fast_recovery = s.in_fast_recovery ∧
    (clean_old_packets s).last_ack = s.last_ack := by
  unfold clean_old_packets
  exact ⟨by trivial, by trivial, by trivial⟩

theorem ensure_aux (s : BState) :
    (ensure_buffer_filled s).in_slow_start = s.in_slow_start ∧
    (ensure_buffer_filled s).in_fast_recovery = s.in_fast_recovery ∧
    (ensure_buffer_filled s).last_ack = s.last_ack := by
  unfold ensure_buffer_filled
  exact fillLoop_aux s (fillTarget s)

theorem sendw_aux (s : BState) (now : ℚ) :
    (send_packets_in_window s now).in_slow_start = s.in_slow_start ∧
    (send_packets_in_window s now).in_fast_recovery = s.in_fast_recovery ∧
    (send_packets_in_window s now).last_ack = s.last_ack := by
  unfold send_packets_in_window
  exact sendLoop_aux s (pyInt s.cwnd) now

theorem increase_cwnd_aux (s : BState) (b : ℕ) :
    (increase_cwnd s b).in_fast_recovery = s.in_fast_recovery ∧
    (increase_cwnd s b).last_ack = s.last_ack ∧
    (s.in_slow_start = false → (increase_cwnd s b).in_slow_start = false) := by
  unfold increase_cwnd
  split
  · dsimp only
    split <;> simp_all
  · simp_all

theorem handle_ack_rtt_aux (s : BState) (ack : ℕ) (echo now : ℚ) :
    (handle_ack_rtt s ack echo now).in_slow_start = s.in_slow_start ∧
    (handle_ack_rtt s ack echo now).in_fast_recovery = s.in_fast_recovery ∧
    (handle_ack_rtt s ack echo now).last_ack = s.last_ack := by
  unfold handle_ack_rtt
  split
  · cases lookupA ack s.in_flight with
    | none => exact ⟨by trivial, by trivial, by trivial⟩
    | some p => exact update_rtt_aux s (now - p.1)
  · exact ⟨by trivial, by trivial, by trivial⟩

theorem handle_ack_core_fr (s0 : BState) (a : ℕ) (now : ℚ)
    (hfr : s0.in_fast_recovery = true) :
    ((handle_ack_core s0 a now).in_fast_recovery = false ↔ s0.last_ack < a) ∧
    (s0.in_slow_start = false →
      (handle_ack_core s0 a now).in_slow_start = false) := by
  unfold handle_ack_core
  by_cases h1 : s0.last_ack < a
  · simp only [if_pos h1, hfr, ite_true]
    constructor
    · rw [(sendw_aux _ _).2.1, (ensure_aux _).2.1, (clean_old_aux _).2.1]
      dsimp only
      rw [(increase_cwnd_aux _ _).1]
      simp [h1]
    · intro hss
      rw [(sendw_aux _ _).1, (ensure_aux _).1, (clean_old_aux _).1]
      dsimp only
      exact (increase_cwnd_aux _ _).2.2 (by dsimp only; exact hss)
  · simp only [if_neg h1]
    by_cases h2 : a = s0.last_ack
    · simp only [if_pos h2]
      try dsimp only
      rw [if_pos hfr]
      constructor
      · rw [(sendw_aux _ _).2.1]
        dsimp only
        simp [hfr, h1]
      · intro hss
        rw [(sendw_aux _ _).1]
        dsimp only
        exact hss
    · simp only [if_neg h2]
      constructor
      · simp [hfr, h1]
      · intro hss; exact hss

theorem handle_ack_core_flags (s0 : BState) (a : ℕ) (now : ℚ)
    (h : s0.in_slow_start = false ∨ s0.in_fast_recovery = false) :
    (handle_ack_core s0 a now).in_slow_start = false ∨
    (handle_ack_core s0 a now).in_fast_recovery = false := by
  unfold handle_ack_core
  by_cases h1 : s0.last_ack < a
  · simp only [if_pos h1]
    right
    rw [(sendw_aux _ _).2.1, (ensure_aux _).2.1, (clean_old_aux _).2.1]
    dsimp only
    rw [(increase_cwnd_aux _ _).1]
    by_cases hfr : s0.in_fast_recovery = true
    · rw [if_pos hfr]
    · rw [if_neg hfr]
      simpa using hfr
  · simp only [if_neg h1]
    by_cases h2 : a = s0.last_ack
    · simp only [if_pos h2]
      try dsimp only
      by_cases hfr : s0.in_fast_recovery = true
      · rw [if_pos hfr]
        left
        rw [(sendw_aux _ _).1]
        rcases h with hss | hfr'
        · exact hss
        · rw [hfr] at hfr'; exact absurd hfr' (by simp)
      · rw [if_neg hfr]
        by_cases h3 : s0.dup_ack_count + 1 = 3
        · simp only [if_pos h3]
          cases hl : lookupA a
              ({ s0 with ssthresh := max (s0.cwnd / 2) (2 * MSS),
                         cwnd := max (s0.cwnd / 2) (2 * MSS) + 3 * MSS,
                         in_fast_recovery := true, recovery_point := s0.LFS,
                         in_slow_start := false,
                         dup_ack_count := s0.dup_ack_count + 1 } : BState).send_buffer with
          | none => left; rfl
          | some d =>
              left
              rw [(send_packet_aux _ _ _).1]
        · simp only [if_neg h3]
          exact h
    · simp only [if_neg h2]
      exact h

theorem handle_ack_flags (s : BState) (a : ℕ) (echo now : ℚ)
    (h : s.in_slow_start = false ∨ s.in_fast_recovery = false) :
    (handle_ack s a echo now).in_slow_start = false ∨
    (handle_ack s a echo now).in_fast_recovery = false := by
  unfold handle_ack
  refine handle_ack_core_flags _ a now ?_
  rcases h with hss | hfr
  · exact Or.inl ((handle_ack_rtt_aux s a echo now).1.trans hss)
  · exact Or.inr ((handle_ack_rtt_aux s a echo now).2.1.trans hfr)

theorem increase_cwnd_flags (s : BState) (b : ℕ)
    (h : s.in_slow_start = false ∨ s.in_fast_recovery = false) :
    (increase_cwnd s b).in_slow_start = false ∨
    (increase_cwnd s b).in_fast_recovery = false := by
  rcases h with hss | hfr
  · exact Or.inl ((increase_cwnd_aux s b).2.2 hss)
  · exact Or.inr (((increase_cwnd_aux s b).1).trans hfr)

theorem handle_timeout_flags (s : BState) (now : ℚ)
    (h : s.in_slow_start = false ∨ s.in_fast_recovery = false) :
    (handle_timeout s now).in_slow_start = false ∨
    (handle_timeout s now).in_fast_recovery = false := by
  unfold handle_timeout
  cases get_oldest_unacked_seq s with
  | none => exact h
  | some seq =>
      dsimp only
      cases hl : lookupA seq s.send_buffer with
      | none => right; rfl
      | some d =>
          right
          dsimp only
          rw [(send_packet_aux _ _ _).2.1]

theorem pyInt_natCast (n : ℕ) : pyInt ((n : ℚ)) = (n : ℤ) := by
  unfold pyInt
  rw [if_neg (not_lt.mpr (by positivity)), Int.floor_natCast]

theorem fillLoop_one (s : BState) (target : ℕ)
    (h1 : s.next_seq_to_prepare < target)
    (h3 : (s.file_data.drop s.next_seq_to_prepare).take 1180 ≠ [])
    (h2 : ¬ s.next_seq_to_prepare +
        ((s.file_data.drop s.next_seq_to_prepare).take 1180).length < target) :
    fillLoop s target =
      { s with
          send_buffer := insertA s.next_seq_to_prepare
            ((s.file_data.drop s.next_seq_to_prepare).take 1180) s.send_buffer,
          next_seq_to_prepare := s.next_seq_to_prepare +
            ((s.file_data.drop s.next_seq_to_prepare).take 1180).length } := by
  rw [fillLoop.eq_def, dif_pos h1]
  dsimp only
  rw [dif_neg h3]
  rw [fillLoop.eq_def, dif_neg (by dsimp only; exact h2)]

theorem sendLoop_one (s : BState) (w : ℤ) (now : ℚ) (d : List ℕ)
    (h1 : (↑s.LFS - ↑s.LAR : ℤ) < w ∧ s.LFS < s.next_seq_to_prepare)
    (hd : lookupA s.LFS s.send_buffer = some d)
    (hne : d ≠ [])
    (h2 : ¬ ((↑(s.LFS + d.length) - ↑s.LAR : ℤ) < w ∧
        s.LFS + d.length < s.next_seq_to_prepare)) :
    sendLoop s w now = { send_packet s s.LFS now with LFS := s.LFS + d.length } := by
  rw [sendLoop.eq_def, dif_pos h1]
  simp only [hd]
  rw [dif_neg hne]
  try dsimp only
  rw [sendLoop.eq_def, dif_neg ?_]
  try dsimp only
  rw [(send_packet_more_aux s s.LFS now).2.1, send_packet_next_seq]
  exact h2

theorem handle_ack_dup (s : BState) (ack : ℕ) (echo now : ℚ)
    (hecho : ¬ 0 < echo) (heq : ack = s.last_ack)
    (hfr : s.in_fast_recovery = false) (hd3 : ¬ s.dup_ack_count + 1 = 3) :
    handle_ack s ack echo now = { s with dup_ack_count := s.dup_ack_count + 1 } := by
  unfold handle_ack handle_ack_rtt handle_ack_core
  rw [if_neg hecho]
  rw [if_neg (show ¬ s.last_ack < ack by omega)]
  rw [if_pos heq]
  try dsimp only
  rw [if_neg (by rw [hfr]; simp)]
  rw [if_neg hd3]

theorem handle_ack_fr_entry (s : BState) (ack : ℕ) (echo now : ℚ) (d : List ℕ)
    (hecho : ¬ 0 < echo) (heq : ack = s.last_ack)
    (hfr : s.in_fast_recovery = false) (hd3 : s.dup_ack_count + 1 = 3)
    (hbuf : lookupA ack s.send_buffer = some d) :
    handle_ack s ack echo now =
      send_packet
        { s with ssthresh := max (s.cwnd / 2) (2 * MSS),
                 cwnd := max (s.cwnd / 2) (2 * MSS) + 3 * MSS,
                 in_fast_recovery := true, recovery_point := s.LFS,
                 in_slow_start := false,
                 dup_ack_count := s.dup_ack_count + 1 } ack now := by
  unfold handle_ack handle_ack_rtt handle_ack_core
  rw [if_neg hecho]
  rw [if_neg (show ¬ s.last_ack < ack by omega)]
  rw [if_pos heq]
  try dsimp only
  rw [if_neg (by rw [hfr]; simp)]
  rw [if_pos hd3]
  try dsimp only
  simp only [hbuf]

theorem c3_file_length : c3_file.length = 1180 := by
  unfold c3_file
  rw [List.length_replicate]

theorem c3_file_ne : c3_file ≠ [] := by
  intro h
  have := c3_file_length
  rw [h] at this
  simp at this

theorem c3_file_take : (c3_file.drop 0).take 1180 = c3_file := by
  rw [List.drop_zero]
  unfold c3_file
  rw [List.take_replicate, min_self]

theorem c3_ensure_eq : ensure_buffer_filled (initB c3_file) = c3_filled := by
  unfold ensure_buffer_filled
  have htgt : fillTarget (initB c3_file) = 1180 := by
    unfold fillTarget
    have hc : (initB c3_file).cwnd * 4 = ((4720 : ℕ) : ℚ) := by
      unfold initB MSS
      norm_num
    rw [hc, pyInt_natCast]
    unfold initB
    dsimp only
    rw [c3_file_length]
    norm_num
  rw [htgt]
  rw [fillLoop_one _ _
    (by unfold initB; norm_num)
    (by unfold initB; dsimp only; rw [c3_file_take]; exact c3_file_ne)
    (by unfold initB; dsimp only; rw [c3_file_take, c3_file_length]; norm_num)]
  unfold c3_filled initB
  dsimp only
  rw [c3_file_take, c3_file_length]
  simp only [insertA]

theorem c3_ready_eq :
    send_packets_in_window (ensure_buffer_filled (initB c3_file)) 0 = c3_ready := by
  rw [c3_ensure_eq]
  unfold send_packets_in_window
  have hw : pyInt c3_filled.cwnd = 1180 := by
    have hc : c3_filled.cwnd = ((1180 : ℕ) : ℚ) := by
      unfold c3_filled initB MSS
      norm_num
    rw [hc, pyInt_natCast]
    norm_num
  rw [hw]
  rw [sendLoop_one _ _ _ c3_file
    (by unfold c3_filled initB; exact ⟨by norm_num, by norm_num⟩)
    (by unfold c3_filled initB; dsimp only; simp [lookupA])
    c3_file_ne
    (by unfold c3_filled initB; dsimp only; rw [c3_file_length]; norm_num)]
  unfold send_packet
  rw [show lookupA c3_filled.LFS c3_filled.in_flight = none from by
    unfold c3_filled initB; dsimp only; simp [lookupA]]
  unfold c3_ready c3_filled initB
  dsimp only
  rw [c3_file_length]
  simp only [insertA]

theorem c3_s5_facts :
    c3_s5.in_fast_recovery = true ∧ c3_s5.last_ack = 0 ∧
    c3_s5.recovery_point = 1180 := by
  unfold c3_s5
  have e1 := handle_ack_dup c3_ready 0 0 1 (by norm_num) rfl rfl (by decide)
  rw [e1]
  have e2 := handle_ack_dup
    { c3_ready with dup_ack_count := c3_ready.dup_ack_count + 1 } 0 0 2
    (by norm_num) rfl rfl (by decide)
  rw [e2]
  have e3 := handle_ack_fr_entry
    { c3_ready with dup_ack_count := c3_ready.dup_ack_count + 1 + 1 } 0 0 3
    c3_file (by norm_num) rfl rfl (by decide) rfl
  rw [e3]
  refine ⟨?_, ?_, ?_⟩
  · rw [(send_packet_aux _ _ _).2.1]
    try rfl
  · rw [(send_packet_aux _ _ _).2.2]
    try rfl
  · rw [(send_packet_more_aux _ _ _).1]
    try rfl

end P2Server

/-! Claim C3: when the variant B sender leaves Fast Recovery. -/

/-- C3 counterexample: the reachable trace — 1180-byte file, preamble
fill-and-send, then three duplicate ACKs of value 0 — puts the sender in
Fast Recovery with `recovery_point = 1180` and `last_ack = 0`; the new ACK
590, although strictly below `recovery_point`, makes `handle_ack` leave
Fast Recovery, contradicting the claimed exit condition
`a ≥ recovery_point`.  (`c3_s5` is this trace's state; `c3_ready_eq` and
`c3_s5_facts` tie it to the modelled run.) -/
theorem c3_counterexample :
    P2Server.c3_s5.in_fast_recovery = true ∧
    P2Server.c3_s5.last_ack = 0 ∧
    P2Server.c3_s5.recovery_point = 1180 ∧
    P2Server.c3_s5.last_ack < 590 ∧
    (590 : ℕ) < P2Server.c3_s5.recovery_point ∧
    (P2Server.handle_ack P2Server.c3_s5 590 0 4).in_fast_recovery = false := by
  obtain ⟨hfr, hlast, hrp⟩ := P2Server.c3_s5_facts
  refine ⟨hfr, hlast, hrp, by rw [hlast]; norm_num, by rw [hrp]; norm_num, ?_⟩
  unfold P2Server.handle_ack
  have h1 := P2Server.handle_ack_rtt_aux P2Server.c3_s5 590 0 4
  exact (P2Server.handle_ack_core_fr _ 590 4 (h1.2.1.trans hfr)).1.mpr
    (by rw [h1.2.2, hlast]; norm_num)

/-- C3 (amended): from any state in Fast Recovery, `handle_ack` exits Fast
Recovery if and only if the ACK is a new ACK (`last_ack < a`) — the code
performs no comparison with `recovery_point`, so even a partial new ACK
below the recovery point exits — and slow start is not re-entered on this
path (congestion avoidance follows when the sender was not in slow
start). -/
theorem c3_fast_recovery_exit_amended (s : P2Server.BState) (a : ℕ)
    (echo now : ℚ) (hfr : s.in_fast_recovery = true) :
    ((P2Server.handle_ack s a echo now).in_fast_recovery = false ↔
      s.last_ack < a) ∧
    (s.in_slow_start = false →
      (P2Server.handle_ack s a echo now).in_slow_start = false) := by
  unfold P2Server.handle_ack
  obtain ⟨r1, r2, r3⟩ := P2Server.handle_ack_rtt_aux s a echo now
  have hfr0 : (P2Server.handle_ack_rtt s a echo now).in_fast_recovery = true :=
    r2.trans hfr
  obtain ⟨k1, k2⟩ := P2Server.handle_ack_core_fr
    (P2Server.handle_ack_rtt s a echo now) a now hfr0
  refine ⟨?_, ?_⟩
  · rw [k1, r3]
  · intro hss
    exact k2 (r1.trans hss)

/-- Witness for C3 (amended) at a concrete fast-recovery state. -/
theorem c3_fast_recovery_exit_amended_witness :
    ((P2Server.handle_ack
        { P2Server.initB [] with in_fast_recovery := true } 1 0 0).in_fast_recovery
          = false ↔
      ({ P2Server.initB [] with in_fast_recovery := true } :
        P2Server.BState).last_ack < 1) ∧
    (({ P2Server.initB [] with in_fast_recovery := true } :
        P2Server.BState).in_slow_start = false →
      (P2Server.handle_ack
        { P2Server.initB [] with in_fast_recovery := true } 1 0 0).in_slow_start
          = false) :=
  c3_fast_recovery_exit_amended _ 1 0 0 rfl

/-! Claim C10: the two phase booleans never encode (SlowStart,
FastRecovery) simultaneously. -/

/-- C10: in every state of the part-2 congestion controller reachable from
the initial state by `handle_ack`, `increase_cwnd`, `handle_timeout` (and
the buffer/transmit operations), `in_slow_start` and `in_fast_recovery`
are never simultaneously true. -/
theorem c10_flags_invariant (file : List ℕ) (s : P2Server.BState)
    (h : P2Server.Reach file s) :
    ¬ (s.in_slow_start = true ∧ s.in_fast_recovery = true) := by
  suffices key : s.in_slow_start = false ∨ s.in_fast_recovery = false by
    rintro ⟨h1, h2⟩
    rcases key with k | k <;> simp_all
  induction h with
  | init => exact Or.inr rfl
  | ack s' a echo now _ ih => exact P2Server.handle_ack_flags s' a echo now ih
  | inc s' bytes _ ih => exact P2Server.increase_cwnd_flags s' bytes ih
  | tmo s' now _ ih => exact P2Server.handle_timeout_flags s' now ih
  | fill s' _ ih =>
      rcases ih with hss | hfr
      · exact Or.inl ((P2Server.ensure_aux s').1.trans hss)
      · exact Or.inr ((P2Server.ensure_aux s').2.1.trans hfr)
  | sendw s' now _ ih =>
      rcases ih with hss | hfr
      · exact Or.inl ((P2Server.sendw_aux s' now).1.trans hss)
      · exact Or.inr ((P2Server.sendw_aux s' now).2.1.trans hfr)

/-- Witness for C10 at the initial state (reachable by `Reach.init`). -/
theorem c10_flags_invariant_witness :
    ¬ ((P2Server.initB []).in_slow_start = true ∧
        (P2Server.initB []).in_fast_recovery = true) :=
  c10_flags_invariant [] (P2Server.initB []) P2Server.Reach.init

namespace P1Client

/-! Helper lemmas for the variant A receiver: postconditions of the
buffered-delivery loop and one equation per control path of
`handle_packet`. -/

theorem drainGo_post (rb : ℕ) (buf : List (ℕ × List ℕ)) (w : List ℕ) :
    lookupA (drainGo rb buf w).rb (drainGo rb buf w).buf = none := by
  induction rb, buf, w using drainGo.induct with
  | case1 rb buf w h =>
      rw [drainGo.eq_def]
      split
      · exact h
      · rename_i d heq
        rw [h] at heq
        cases heq
  | case2 rb buf w h =>
      rw [drainGo.eq_def]
      split
      · rename_i heq
        rw [heq] at h
        cases h
      · rename_i d heq
        rw [h] at heq
        injection heq with hd
        subst hd
        rw [if_pos rfl]
        exact lookupA_eraseA_self rb buf
  | case3 rb buf w d h hne ih =>
      rw [drainGo.eq_def]
      split
      · rename_i heq
        rw [heq] at h
        cases h
      · rename_i d' heq
        rw [h] at heq
        injection heq with hd
        subst hd
        rw [if_neg hne]
        exact ih

theorem drainGo_rb_ge (rb : ℕ) (buf : List (ℕ × List ℕ)) (w : List ℕ) :
    rb ≤ (drainGo rb buf w).rb := by
  induction rb, buf, w using drainGo.induct with
  | case1 rb buf w h =>
      rw [drainGo.eq_def]
      split
      · try exact le_refl rb
      · rename_i d heq
        rw [h] at heq
        cases heq
  | case2 rb buf w h =>
      rw [drainGo.eq_def]
      split
      · try exact le_refl rb
      · rename_i d heq
        rw [h] at heq
        injection heq with hd
        subst hd
        rw [if_pos rfl]
        try exact le_refl rb
  | case3 rb buf w d h hne ih =>
      rw [drainGo.eq_def]
      split
      · try exact le_refl rb
      · rename_i d' heq
        rw [h] at heq
        injection heq with hd
        subst hd
        rw [if_neg hne]
        exact le_trans (Nat.le_add_right rb d.length) ih

theorem drainGo_exit (rb : ℕ) (buf : List (ℕ × List ℕ)) (w : List ℕ)
    (h : lookupA rb buf = none) : drainGo rb buf w = ⟨rb, buf, w, false⟩ := by
  rw [drainGo.eq_def]
  split
  · rfl
  · rename_i d heq
    rw [h] at heq
    cases heq

/-! Branch equations for `handle_packet`, one per control path of the
source. -/

theorem handle_packet_eof_here (seq : ℕ) (s : CState) (h : seq = s.recv_base) :
    handle_packet seq EOFb s =
      ⟨{ s with complete := true }, List.replicate 3 (seq + 3, []), true⟩ := by
  unfold handle_packet
  rw [if_pos rfl, if_pos h]

theorem handle_packet_eof_away (seq : ℕ) (s : CState)
    (h : ¬ seq = s.recv_base) :
    handle_packet seq EOFb s =
      ⟨{ s with recv_buffer := insertA seq EOFb s.recv_buffer,
                sack_blocks := update_sack_blocks (insertA seq EOFb s.recv_buffer) },
       [(s.recv_base, update_sack_blocks (insertA seq EOFb s.recv_buffer))],
       false⟩ := by
  unfold handle_packet
  rw [if_pos rfl, if_neg h]

theorem handle_packet_inorder (seq : ℕ) (data : List ℕ) (s : CState)
    (hEof : ¬ data = EOFb) (h : seq = s.recv_base) :
    handle_packet seq data s =
      if (drainGo (s.recv_base + data.length) s.recv_buffer
          (s.written ++ data)).hitEof then
        ⟨⟨(drainGo (s.recv_base + data.length) s.recv_buffer
              (s.written ++ data)).rb,
          (drainGo (s.recv_base + data.length) s.recv_buffer
              (s.written ++ data)).buf,
          s.sack_blocks,
          (drainGo (s.recv_base + data.length) s.recv_buffer
              (s.written ++ data)).w,
          true⟩,
         List.replicate 3
           ((drainGo (s.recv_base + data.length) s.recv_buffer
              (s.written ++ data)).rb + 3, []),
         true⟩
      else
        ⟨⟨(drainGo (s.recv_base + data.length) s.recv_buffer
              (s.written ++ data)).rb,
          (drainGo (s.recv_base + data.length) s.recv_buffer
              (s.written ++ data)).buf,
          update_sack_blocks ((drainGo (s.recv_base + data.length) s.recv_buffer
              (s.written ++ data)).buf),
          (drainGo (s.recv_base + data.length) s.recv_buffer
              (s.written ++ data)).w,
          s.complete⟩,
         [((drainGo (s.recv_base + data.length) s.recv_buffer
              (s.written ++ data)).rb,
           update_sack_blocks ((drainGo (s.recv_base + data.length)
              s.recv_buffer (s.written ++ data)).buf))],
         false⟩ := by
  unfold handle_packet
  rw [if_neg hEof, if_pos h]

theorem handle_packet_below (seq : ℕ) (data : List ℕ) (s : CState)
    (hEof : ¬ data = EOFb) (h1 : ¬ seq = s.recv_base)
    (h2 : seq < s.recv_base) :
    handle_packet seq data s = ⟨s, [(s.recv_base, s.sack_blocks)], false⟩ := by
  unfold handle_packet
  rw [if_neg hEof, if_neg h1, if_pos h2]

theorem handle_packet_above_new (seq : ℕ) (data : List ℕ) (s : CState)
    (hEof : ¬ data = EOFb) (h1 : ¬ seq = s.recv_base)
    (h2 : ¬ seq < s.recv_base) (hb : lookupA seq s.recv_buffer = none) :
    handle_packet seq data s =
      ⟨{ s with recv_buffer := insertA seq data s.recv_buffer,
                sack_blocks := update_sack_blocks (insertA seq data s.recv_buffer) },
       [(s.recv_base, update_sack_blocks (insertA seq data s.recv_buffer))],
       false⟩ := by
  unfold handle_packet
  rw [if_neg hEof, if_neg h1, if_neg h2]
  simp only [hb]

theorem handle_packet_above_dup (seq : ℕ) (data : List ℕ) (s : CState)
    (hEof : ¬ data = EOFb) (h1 : ¬ seq = s.recv_base)
    (h2 : ¬ seq < s.recv_base)
    (hb : (lookupA seq s.recv_buffer).isSome = true) :
    handle_packet seq data s = ⟨s, [(s.recv_base, s.sack_blocks)], false⟩ := by
  unfold handle_packet
  rw [if_neg hEof, if_neg h1, if_neg h2]
  cases hl : lookupA seq s.recv_buffer with
  | none => rw [hl] at hb; simp at hb
  | some d => simp only [hl]

theorem hp_fixpoint (seq : ℕ) (data : List ℕ) (s : CState) :
    projC (hp seq data (hp seq data s)) = projC (hp seq data s) := by
  by_cases hEof : data = EOFb
  · subst hEof
    by_cases hseq : seq = s.recv_base
    · unfold hp
      rw [handle_packet_eof_here seq s hseq]
      dsimp only
      rw [handle_packet_eof_here]
      exact hseq
    · unfold hp
      rw [handle_packet_eof_away seq s hseq]
      dsimp only
      rw [handle_packet_eof_away]
      · simp [projC, insertA_idem]
      · exact hseq
  · by_cases hseq : seq = s.recv_base
    · unfold hp
      rw [handle_packet_inorder seq data s hEof hseq]
      rcases Nat.lt_or_ge seq
          (drainGo (s.recv_base + data.length) s.recv_buffer
            (s.written ++ data)).rb with hlt | hge
      · by_cases hhit : (drainGo (s.recv_base + data.length) s.recv_buffer
            (s.written ++ data)).hitEof = true
        · rw [if_pos hhit]
          dsimp only
          rw [handle_packet_below]
          · exact hEof
          · exact Nat.ne_of_lt hlt
          · exact hlt
        · rw [if_neg hhit]
          dsimp only
          rw [handle_packet_below]
          · exact hEof
          · exact Nat.ne_of_lt hlt
          · exact hlt
      · have hge' := drainGo_rb_ge (s.recv_base + data.length) s.recv_buffer
          (s.written ++ data)
        have hlen : data.length = 0 := by omega
        obtain rfl : data = [] := List.length_eq_zero.mp hlen
        simp only [List.length_nil, Nat.add_zero, List.append_nil] at hge hge' ⊢
        have hpost := drainGo_post s.recv_base s.recv_buffer s.written
        have hrb : (drainGo s.recv_base s.recv_buffer s.written).rb
            = s.recv_base := by omega
        by_cases hhit : (drainGo s.recv_base s.recv_buffer s.written).hitEof
            = true
        · rw [if_pos hhit]
          dsimp only
          rw [handle_packet_inorder]
          · simp only [List.length_nil, Nat.add_zero, List.append_nil]
            try dsimp only
            rw [drainGo_exit _ _ _ hpost]
            simp [projC]
          · exact hEof
          · exact hseq.trans hrb.symm
        · rw [if_neg hhit]
          dsimp only
          rw [handle_packet_inorder]
          · simp only [List.length_nil, Nat.add_zero, List.append_nil]
            try dsimp only
            rw [drainGo_exit _ _ _ hpost]
            simp [projC]
          · exact hEof
          · exact hseq.trans hrb.symm
    · by_cases hlt : seq < s.recv_base
      · unfold hp
        rw [handle_packet_below seq data s hEof hseq hlt]
        dsimp only
        rw [handle_packet_below seq data s hEof hseq hlt]
      · cases hbuf : lookupA seq s.recv_buffer with
        | none =>
            unfold hp
            rw [handle_packet_above_new seq data s hEof hseq hlt hbuf]
            dsimp only
            rw [handle_packet_above_dup]
            · exact hEof
            · exact hseq
            · exact hlt
            · simp [lookupA_insertA_self]
        | some d0 =>
            unfold hp
            rw [handle_packet_above_dup seq data s hEof hseq hlt
              (by rw [hbuf]; rfl)]
            dsimp only
            rw [handle_packet_above_dup seq data s hEof hseq hlt
              (by rw [hbuf]; rfl)]

theorem hp_projC_congr (seq : ℕ) (data : List ℕ) (s s' : CState)
    (h : projC s = projC s') :
    projC (hp seq data s) = projC (hp seq data s') := by
  rcases s with ⟨rb, buf, sk, w, c⟩
  rcases s' with ⟨rb2, buf2, sk2, w2, c2⟩
  simp only [projC, Prod.mk.injEq] at h
  obtain ⟨h1, h2, h3, h4⟩ := h
  subst h1
  subst h2
  subst h3
  subst h4
  by_cases hEof : data = EOFb
  · subst hEof
    by_cases hseq : seq = rb
    · unfold hp
      rw [handle_packet_eof_here seq ⟨rb, buf, sk, w, c⟩ hseq]
      rw [handle_packet_eof_here seq ⟨rb, buf, sk2, w, c⟩ hseq]
      try simp [projC]
    · unfold hp
      rw [handle_packet_eof_away seq ⟨rb, buf, sk, w, c⟩ hseq]
      rw [handle_packet_eof_away seq ⟨rb, buf, sk2, w, c⟩ hseq]
      try simp [projC]
  · by_cases hseq : seq = rb
    · unfold hp
      rw [handle_packet_inorder seq data ⟨rb, buf, sk, w, c⟩ hEof hseq]
      rw [handle_packet_inorder seq data ⟨rb, buf, sk2, w, c⟩ hEof hseq]
      by_cases hhit : (drainGo (rb + data.length) buf (w ++ data)).hitEof = true
      · rw [if_pos hhit, if_pos hhit]
        try simp [projC]
      · rw [if_neg hhit, if_neg hhit]
        try simp [projC]
    · by_cases hlt : seq < rb
      · unfold hp
        rw [handle_packet_below seq data ⟨rb, buf, sk, w, c⟩ hEof hseq hlt]
        rw [handle_packet_below seq data ⟨rb, buf, sk2, w, c⟩ hEof hseq hlt]
        try simp [projC]
      · cases hbuf : lookupA seq buf with
        | none =>
            unfold hp
            rw [handle_packet_above_new seq data ⟨rb, buf, sk, w, c⟩
              hEof hseq hlt hbuf]
            rw [handle_packet_above_new seq data ⟨rb, buf, sk2, w, c⟩
              hEof hseq hlt hbuf]
            try simp [projC]
        | some d0 =>
            unfold hp
            rw [handle_packet_above_dup seq data ⟨rb, buf, sk, w, c⟩
              hEof hseq hlt (by rw [hbuf]; rfl)]
            rw [handle_packet_above_dup seq data ⟨rb, buf, sk2, w, c⟩
              hEof hseq hlt (by rw [hbuf]; rfl)]
            try simp [projC]

theorem hp_iterate (seq : ℕ) (data : List ℕ) (s : CState) (n : ℕ)
    (hn : 1 ≤ n) :
    projC ((hp seq data)^[n] s) = projC (hp seq data s) := by
  obtain ⟨m, rfl⟩ : ∃ m, n = m + 1 := ⟨n - 1, by omega⟩
  clear hn
  induction m with
  | zero => simp
  | succ k ih =>
      rw [Function.iterate_succ_apply']
      exact (hp_projC_congr seq data _ _ ih).trans (hp_fixpoint seq data s)

end P1Client

/-! Claim C8: receiver idempotence. -/

/-- C8: for every variant A receiver state and every segment
(offset, payload), invoking `handle_packet` N times in a row with that
same segment (N ≥ 1) leaves the same written file content and the same
`recv_base` as invoking it exactly once. -/
theorem c8_receiver_idempotent (s : P1Client.CState) (seq : ℕ)
    (data : List ℕ) (n : ℕ) (hn : 1 ≤ n) :
    ((P1Client.hp seq data)^[n] s).written
        = (P1Client.hp seq data s).written ∧
    ((P1Client.hp seq data)^[n] s).recv_base
        = (P1Client.hp seq data s).recv_base := by
  have h := P1Client.hp_iterate seq data s n hn
  exact ⟨congrArg (fun p => p.2.2.1) h, congrArg (fun p => p.1) h⟩

/-- Witness for C8 at the fresh receiver, segment (0, [5]), N = 3. -/
theorem c8_receiver_idempotent_witness :
    ((P1Client.hp 0 [5])^[3] P1Client.initC).written
        = (P1Client.hp 0 [5] P1Client.initC).written ∧
    ((P1Client.hp 0 [5])^[3] P1Client.initC).recv_base
        = (P1Client.hp 0 [5] P1Client.initC).recv_base :=
  c8_receiver_idempotent P1Client.initC 0 [5] 3 (by norm_num)

namespace P1Client

/-! Invariant lemmas for the variant A receiver relating its state to the
transferred file (used for the amended completeness claim). -/

theorem drainGo_inv (file : List ℕ) (rb : ℕ) (buf : List (ℕ × List ℕ))
    (w : List ℕ) :
    w = file.take rb → rb ≤ file.length → (∀ p ∈ buf, Valid file p) →
    (drainGo rb buf w).w = file.take (drainGo rb buf w).rb ∧
      (drainGo rb buf w).rb ≤ file.length ∧
      (∀ p ∈ (drainGo rb buf w).buf, Valid file p) ∧
      ((drainGo rb buf w).hitEof = true → (drainGo rb buf w).rb = file.length) := by
  induction rb, buf, w using drainGo.induct with
  | case1 rb buf w h =>
      intro hw hrb hbuf
      rw [drainGo_exit rb buf w h]
      exact ⟨hw, hrb, hbuf, fun hh => by simp at hh⟩
  | case2 rb buf w h =>
      intro hw hrb hbuf
      have hstep : drainGo rb buf w = ⟨rb, eraseA rb buf, w, true⟩ := by
        rw [drainGo.eq_def]
        split
        · rename_i heq
          rw [heq] at h
          cases h
        · rename_i d heq
          rw [h] at heq
          injection heq with hd
          subst hd
          rw [if_pos rfl]
      rw [hstep]
      have hv : (EOFb = EOFb ∧ rb = file.length) ∨
          (EOFb ≠ EOFb ∧ EOFb ≠ [] ∧ rb + EOFb.length ≤ file.length ∧
            EOFb = (file.drop rb).take EOFb.length) :=
        hbuf _ (lookupA_mem h)
      have hrbl : rb = file.length := by
        rcases hv with ⟨-, h2⟩ | ⟨h1, -⟩
        · exact h2
        · exact absurd rfl h1
      exact ⟨hw, hrb, fun p hp2 => hbuf p (eraseA_mem hp2), fun _ => hrbl⟩
  | case3 rb buf w d h hne ih =>
      intro hw hrb hbuf
      have hstep : drainGo rb buf w
          = drainGo (rb + d.length) (eraseA rb buf) (w ++ d) := by
        rw [drainGo.eq_def]
        split
        · rename_i heq
          rw [heq] at h
          cases h
        · rename_i d' heq
          rw [h] at heq
          injection heq with hd
          subst hd
          rw [if_neg hne]
      rw [hstep]
      have hv : (d = EOFb ∧ rb = file.length) ∨
          (d ≠ EOFb ∧ d ≠ [] ∧ rb + d.length ≤ file.length ∧
            d = (file.drop rb).take d.length) :=
        hbuf _ (lookupA_mem h)
      rcases hv with ⟨he, -⟩ | ⟨-, hne2, hle, hdat⟩
      · exact absurd he hne
      · refine ih ?_ hle (fun p hp2 => hbuf p (eraseA_mem hp2))
        rw [hw, List.take_add, ← hdat]

theorem hp_inv (file : List ℕ) (seq : ℕ) (data : List ℕ) (s : CState)
    (hval : Valid file (seq, data)) (hinv : Inv file s) :
    Inv file (hp seq data s) := by
  have hval' : (data = EOFb ∧ seq = file.length) ∨
      (data ≠ EOFb ∧ data ≠ [] ∧ seq + data.length ≤ file.length ∧
        data = (file.drop seq).take data.length) := hval
  unfold Inv at hinv
  obtain ⟨hw, hrb, hbuf, hcomp⟩ := hinv
  by_cases hEof : data = EOFb
  · subst hEof
    have hlen : seq = file.length := by
      rcases hval' with ⟨-, h2⟩ | ⟨h1, -⟩
      · exact h2
      · exact absurd rfl h1
    by_cases hseq : seq = s.recv_base
    · unfold hp
      rw [handle_packet_eof_here seq s hseq]
      exact ⟨hw, hrb, hbuf, fun _ => by rw [← hseq]; exact hlen⟩
    · unfold hp
      rw [handle_packet_eof_away seq s hseq]
      refine ⟨hw, hrb, ?_, hcomp⟩
      intro p hp2
      rcases insertA_mem hp2 with h | h
      · subst h
        exact Or.inl ⟨rfl, hlen⟩
      · exact hbuf p h
  · have hseg : data ≠ [] ∧ seq + data.length ≤ file.length ∧
        data = (file.drop seq).take data.length := by
      rcases hval' with ⟨h1, -⟩ | ⟨-, a, b, c⟩
      · exact absurd h1 hEof
      · exact ⟨a, b, c⟩
    obtain ⟨hne2, hle, hdat⟩ := hseg
    by_cases hseq : seq = s.recv_base
    · unfold hp
      rw [handle_packet_inorder seq data s hEof hseq]
      have hw' : s.written ++ data = file.take (s.recv_base + data.length) := by
        rw [hw, List.take_add, ← hseq, ← hdat]
      have hD := drainGo_inv file (s.recv_base + data.length) s.recv_buffer
        (s.written ++ data) hw' (by omega) hbuf
      obtain ⟨d1, d2, d3, d4⟩ := hD
      split
      · rename_i hhit
        exact ⟨d1, d2, d3, fun _ => d4 hhit⟩
      · rename_i hhit
        refine ⟨d1, d2, d3, ?_⟩
        intro hc2
        have h1 := hcomp hc2
        have h2 := drainGo_rb_ge (s.recv_base + data.length) s.recv_buffer
          (s.written ++ data)
        have h3 : 0 < data.length := List.length_pos.mpr hne2
        omega
    · by_cases hlt : seq < s.recv_base
      · unfold hp
        rw [handle_packet_below seq data s hEof hseq hlt]
        exact ⟨hw, hrb, hbuf, hcomp⟩
      · cases hb : lookupA seq s.recv_buffer with
        | none =>
            unfold hp
            rw [handle_packet_above_new seq data s hEof hseq hlt hb]
            refine ⟨hw, hrb, ?_, hcomp⟩
            intro p hp2
            rcases insertA_mem hp2 with h | h
            · subst h
              exact Or.inr ⟨hEof, hne2, hle, hdat⟩
            · exact hbuf p h
        | some d0 =>
            unfold hp
            rw [handle_packet_above_dup seq data s hEof hseq hlt
              (by rw [hb]; rfl)]
            exact ⟨hw, hrb, hbuf, hcomp⟩

theorem foldl_inv (file : List ℕ) :
    ∀ (l : List (ℕ × List ℕ)) (t : CState),
      (∀ sg ∈ l, Valid file sg) → Inv file t →
      Inv file (l.foldl (fun st sg => hp sg.1 sg.2 st) t) := by
  intro l
  induction l with
  | nil =>
      intro t _ ht
      simpa using ht
  | cons a tl ih =>
      intro t hv ht
      simp only [List.foldl_cons]
      exact ih (hp a.1 a.2 t) (fun sg hs => hv sg (List.mem_cons_of_mem a hs))
        (hp_inv file a.1 a.2 t (hv a (List.mem_cons_self a tl)) ht)

/-! Evaluation helpers for the in-order path with an empty receive
buffer (the delivery loop exits at once, so `hp` reduces to a record
update), used by the concrete run below. -/

theorem hp_inorder_empty (seq : ℕ) (data : List ℕ) (s : CState)
    (hEof : ¬ data = EOFb) (h : seq = s.recv_base) (hb : s.recv_buffer = []) :
    hp seq data s
      = ⟨s.recv_base + data.length, [], [], s.written ++ data, s.complete⟩ := by
  unfold hp
  rw [handle_packet_inorder seq data s hEof h, hb]
  rw [drainGo_exit (s.recv_base + data.length) [] (s.written ++ data) rfl]
  rfl

theorem hp_eof_here (seq : ℕ) (s : CState) (h : seq = s.recv_base) :
    hp seq EOFb s = { s with complete := true } := by
  unfold hp
  rw [handle_packet_eof_here seq s h]

theorem c1_fold_eval :
    ([(0, [1, 2]), (2, [3, 4]), (4, EOFb)] : List (ℕ × List ℕ)).foldl
        (fun st sg => hp sg.1 sg.2 st) initC
      = ⟨4, [], [], [1, 2, 3, 4], true⟩ := by
  have e1 : hp 0 [1, 2] initC = ⟨2, [], [], [1, 2], false⟩ :=
    (hp_inorder_empty 0 [1, 2] initC (by decide) rfl rfl).trans rfl
  have e2 : hp 2 [3, 4] (⟨2, [], [], [1, 2], false⟩ : CState)
      = ⟨4, [], [], [1, 2, 3, 4], false⟩ :=
    (hp_inorder_empty 2 [3, 4] ⟨2, [], [], [1, 2], false⟩
      (by decide) rfl rfl).trans rfl
  have e3 : hp 4 EOFb (⟨4, [], [], [1, 2, 3, 4], false⟩ : CState)
      = ⟨4, [], [], [1, 2, 3, 4], true⟩ :=
    (hp_eof_here 4 ⟨4, [], [], [1, 2, 3, 4], false⟩ rfl).trans rfl
  simp only [List.foldl_cons, List.foldl_nil]
  rw [e1, e2, e3]

end P1Client

/-! Claim C1: completion implies the written bytes equal the file. -/

/-- C1 (amended): for the variant A receiver, if every delivered segment
is a valid segment of `file` — either a non-empty, non-`EOF` payload
carrying exactly the file bytes at its offset, or the `EOF` marker at
offset `file.length` — then whenever `handle_packet`, applied over any
sequence of such segments from the initial state, reports the transfer
complete, the byte stream written to disk equals `file` exactly.  (The
guarantee fails for the variant B receiver, which completes on any `EOF`
regardless of offset: see the counterexample.) -/
theorem c1_varA_complete_writes_file (file : List ℕ)
    (segs : List (ℕ × List ℕ))
    (hvalid : ∀ sg ∈ segs, P1Client.Valid file sg)
    (hc : (segs.foldl (fun st sg => P1Client.hp sg.1 sg.2 st)
            P1Client.initC).complete = true) :
    (segs.foldl (fun st sg => P1Client.hp sg.1 sg.2 st)
        P1Client.initC).written = file := by
  have h0 : P1Client.Inv file P1Client.initC := by
    refine ⟨?_, ?_, ?_, ?_⟩
    · simp [P1Client.initC]
    · simp [P1Client.initC]
    · intro p hp2
      simp [P1Client.initC] at hp2
    · intro h2
      simp [P1Client.initC] at h2
  have hinv := P1Client.foldl_inv file segs P1Client.initC hvalid h0
  unfold P1Client.Inv at hinv
  obtain ⟨hw, -, -, h4⟩ := hinv
  rw [hw, h4 hc, List.take_length]

/-- Witness for C1 (amended): the 4-byte file [1, 2, 3, 4] delivered as
two data segments followed by the EOF marker. -/
theorem c1_varA_complete_writes_file_witness :
    (([(0, [1, 2]), (2, [3, 4]), (4, EOFb)] : List (ℕ × List ℕ)).foldl
        (fun st sg => P1Client.hp sg.1 sg.2 st) P1Client.initC).written
      = [1, 2, 3, 4] :=
  c1_varA_complete_writes_file [1, 2, 3, 4]
    [(0, [1, 2]), (2, [3, 4]), (4, EOFb)]
    (by decide) (by rw [P1Client.c1_fold_eval])

end Proto
